import Mathlib

/-!
Verification of the to-do list sync component (src/App.tsx).

The embedding below translates the pure state logic of the component:
the task record, the display sort comparator, the CRUD handlers
(addTask, deleteTask, toggleComplete, clearAllTasks), the snapshot
handler of the Firestore subscription, and the two guarded save
effects.  Stateful React behaviour is modelled as an explicit event
step function over a record of the component state; each event
yields the list of document writes it triggers.
-/

set_option maxHeartbeats 1000000

namespace Todo

/-- Priority enum from App.tsx: `type Priority = high | medium | low`. -/
inductive Priority where
  | high
  | medium
  | low
deriving DecidableEq, Repr

/-- Task record from App.tsx: text, completed, priority, createdAt. -/
structure Task where
  text : String
  completed : Bool
  priority : Priority
  createdAt : Nat
deriving DecidableEq, Repr

/-- The numeric priority table of the sort comparator:
`prioOrder = \x7b high: 3, medium: 2, low: 1 \x7d`. -/
def prioOrder : Priority → Int
  | .high => 3
  | .medium => 2
  | .low => 1

/-- The comparator passed to `sort` in `sortedTasks`:
`prioDiff = prioOrder[b.priority] - prioOrder[a.priority];
 return prioDiff !== 0 ? prioDiff : b.createdAt - a.createdAt`. -/
def taskCmp (a b : Task) : Int :=
  let prioDiff := prioOrder b.priority - prioOrder a.priority
  if prioDiff ≠ 0 then prioDiff else (b.createdAt : Int) - (a.createdAt : Int)

/-- The before-or-equal ordering induced by the comparator: `a` may be
placed at or before `b` exactly when the comparator is nonpositive. -/
def taskLe (a b : Task) : Prop := taskCmp a b ≤ 0

instance : DecidableRel taskLe := fun a b =>
  inferInstanceAs (Decidable (taskCmp a b ≤ 0))

instance : IsTotal Task taskLe :=
  ⟨fun a b => by
    have key : ∀ x y : Task, taskLe x y ↔
        (prioOrder y.priority < prioOrder x.priority ∨
          (prioOrder x.priority = prioOrder y.priority ∧ y.createdAt ≤ x.createdAt)) := by
      intro x y
      simp only [taskLe, taskCmp]
      split <;> omega
    rw [key, key]
    omega⟩

instance : IsTrans Task taskLe :=
  ⟨fun a b c hab hbc => by
    have key : ∀ x y : Task, taskLe x y ↔
        (prioOrder y.priority < prioOrder x.priority ∨
          (prioOrder x.priority = prioOrder y.priority ∧ y.createdAt ≤ x.createdAt)) := by
      intro x y
      simp only [taskLe, taskCmp]
      split <;> omega
    rw [key] at hab hbc ⊢
    omega⟩

/-- Display sort from App.tsx: `[...tasks].sort(comparator)`.
The comparator is a consistent (total, transitive, antisymmetric up to
sign) comparison function, so the ECMAScript stable sort is
extensionally the unique stable sort for `taskLe`; it is modelled by
the stable `List.insertionSort`. -/
def sortedTasks (tasks : List Task) : List Task :=
  tasks.insertionSort taskLe

/-- Preferences field of the user document; `darkMode` may be absent. -/
structure Prefs where
  darkMode : Option Bool
deriving DecidableEq, Repr

/-- Partial user document: either field may be absent.  Used both for
the remote document content and for `setDoc` merge payloads. -/
structure DocData where
  tasks : Option (List Task)
  preferences : Option Prefs
deriving DecidableEq, Repr

/-- Top-level merge semantics of `setDoc(.., payload, \x7b merge: true \x7d)`:
a top-level field present in the payload replaces the stored field,
an absent one leaves the stored field untouched. -/
def setDocMerge (current payload : DocData) : DocData :=
  { tasks := match payload.tasks with
             | some ts => some ts
             | none => current.tasks,
    preferences := match payload.preferences with
                   | some p => some p
                   | none => current.preferences }

/-- Payload of the task-saving effect: `setDoc(doc, \x7b tasks \x7d, merge)`. -/
def tasksPayload (ts : List Task) : DocData :=
  { tasks := some ts, preferences := none }

/-- Payload of the preferences-saving effect:
`setDoc(doc, \x7b preferences: \x7b darkMode \x7d \x7d, merge)`. -/
def prefsPayload (d : Bool) : DocData :=
  { tasks := none, preferences := some { darkMode := some d } }

/-- The component state: local task list, pending input text, pending
priority selection, identity, loading and initial-load flags, theme. -/
structure SyncState where
  tasks : List Task
  newTask : String
  priority : Priority
  userId : Option String
  loading : Bool
  isInitialLoadDone : Bool
  darkMode : Bool
deriving DecidableEq, Repr

/-- ECMAScript `String.prototype.trim`: strips whitespace from both
ends of the string.  Implemented over the character list so that it
evaluates inside the kernel. -/
def jsTrim (s : String) : String :=
  String.mk (((s.data.dropWhile Char.isWhitespace).reverse.dropWhile
    Char.isWhitespace).reverse)

/-- addTask handler from App.tsx: no-op when the trimmed input text is
empty; otherwise appends the new task and resets the input text to the
empty string and the priority selection to medium.  `now` stands for
the `Date.now()` timestamp. -/
def addTask (st : SyncState) (now : Nat) : SyncState :=
  if jsTrim st.newTask = "" then st
  else
    { st with
      tasks := st.tasks ++
        [{ text := jsTrim st.newTask, completed := false,
           priority := st.priority, createdAt := now }],
      newTask := "",
      priority := .medium }

/-- Indexed filter, the semantics of `Array.prototype.filter` with an
index-aware callback; `start` is the index of the first element. -/
def filterWithIndex (p : Nat → Task → Bool) (start : Nat) : List Task → List Task
  | [] => []
  | t :: ts =>
    if p start t then t :: filterWithIndex p (start + 1) ts
    else filterWithIndex p (start + 1) ts

/-- deleteTask from App.tsx: `tasks.filter((_, i) => i !== index)`.
The index is an ECMAScript number, possibly negative (e.g. the -1 that
`findIndex` yields on a miss), hence `Int`. -/
def deleteTask (tasks : List Task) (index : Int) : List Task :=
  filterWithIndex (fun i _ => decide ((i : Int) ≠ index)) 0 tasks

/-- Indexed map, the semantics of `Array.prototype.map` with an
index-aware callback; `start` is the index of the first element. -/
def mapWithIndex (f : Nat → Task → Task) (start : Nat) : List Task → List Task
  | [] => []
  | t :: ts => f start t :: mapWithIndex f (start + 1) ts

/-- toggleComplete from App.tsx:
`tasks.map((task, i) => i === index ? \x7b ...task, completed: !task.completed \x7d : task)`. -/
def toggleComplete (tasks : List Task) (index : Int) : List Task :=
  mapWithIndex
    (fun i task =>
      if (i : Int) = index then { task with completed := !task.completed }
      else task)
    0 tasks

/-- clearAllTasks from App.tsx: empties the list only when the user
confirms the `window.confirm` dialog. -/
def clearAllTasks (tasks : List Task) (confirmed : Bool) : List Task :=
  if confirmed then [] else tasks

/-- originalIndex from App.tsx:
`tasks.findIndex(t => t.createdAt === task.createdAt)`; ECMAScript
`findIndex` returns the first matching index, or -1 when none matches. -/
def originalIndex (tasks : List Task) (c : Nat) : Int :=
  match tasks with
  | [] => -1
  | t :: ts =>
    if t.createdAt = c then 0
    else if originalIndex ts c = -1 then -1 else originalIndex ts c + 1

/-- Snapshot handler of the `onSnapshot` subscription.  `none` is a
non-existing document.  On an existing document the local tasks are
replaced by `data.tasks || []` and the theme is replaced only when
`data.preferences?.darkMode` is defined; either way, `loading` is
cleared and the initial-load flag is set. -/
def applySnapshot (st : SyncState) (snap : Option DocData) : SyncState :=
  match snap with
  | some data =>
    { st with
      tasks := data.tasks.getD [],
      darkMode :=
        match data.preferences.bind Prefs.darkMode with
        | some d => d
        | none => st.darkMode,
      loading := false,
      isInitialLoadDone := true }
  | none =>
    { st with tasks := [], loading := false, isInitialLoadDone := true }

/-- Task-saving effect from App.tsx: returns early with no write when
there is no identity or the initial load is not done, otherwise issues
one `\x7b tasks \x7d` merge write. -/
def saveTasksEffect (st : SyncState) : List DocData :=
  if st.userId.isNone || !st.isInitialLoadDone then []
  else [tasksPayload st.tasks]

/-- Preferences-saving effect from App.tsx: same guard, then one
`\x7b preferences: \x7b darkMode \x7d \x7d` merge write. -/
def savePrefsEffect (st : SyncState) : List DocData :=
  if st.userId.isNone || !st.isInitialLoadDone then []
  else [prefsPayload st.darkMode]

/-- The events that drive the component under one identity: snapshot
arrival, the CRUD handlers, input edits and the theme toggle. -/
inductive Event where
  | snapshot (snap : Option DocData)
  | addTask (now : Nat)
  | deleteTask (index : Int)
  | toggleComplete (index : Int)
  | clearAll (confirmed : Bool)
  | setNewTask (text : String)
  | setPriority (p : Priority)
  | toggleDark
deriving DecidableEq, Repr

/-- Recognizer for snapshot events. -/
def isSnapshotEvent : Event → Bool
  | .snapshot _ => true
  | _ => false

/-- One event step: the new component state together with the writes
the step triggers.  A snapshot changes `tasks` (a fresh array) and
possibly `darkMode` and the flags, so both save effects re-run; a task
mutation calls `setTasks` with a fresh array, so the task-saving
effect re-runs; the theme toggle re-runs the preferences effect; a
no-op addTask and the pure input edits trigger no effect. -/
def step (st : SyncState) (e : Event) : SyncState × List DocData :=
  match e with
  | .snapshot snap =>
    let st1 := applySnapshot st snap
    (st1, saveTasksEffect st1 ++ savePrefsEffect st1)
  | .addTask now =>
    let st1 := addTask st now
    (st1, if jsTrim st.newTask = "" then [] else saveTasksEffect st1)
  | .deleteTask i =>
    let st1 := { st with tasks := deleteTask st.tasks i }
    (st1, saveTasksEffect st1)
  | .toggleComplete i =>
    let st1 := { st with tasks := toggleComplete st.tasks i }
    (st1, saveTasksEffect st1)
  | .clearAll confirmed =>
    let st1 := { st with tasks := clearAllTasks st.tasks confirmed }
    (st1, if confirmed then saveTasksEffect st1 else [])
  | .setNewTask s => ({ st with newTask := s }, [])
  | .setPriority p => ({ st with priority := p }, [])
  | .toggleDark =>
    let st1 := { st with darkMode := !st.darkMode }
    (st1, savePrefsEffect st1)

/-- Run a sequence of events, collecting all triggered writes in order. -/
def run (st : SyncState) : List Event → SyncState × List DocData
  | [] => (st, [])
  | e :: es =>
    ((run (step st e).1 es).1, (step st e).2 ++ (run (step st e).1 es).2)

/-- Concrete task used by the concrete-input evaluations below. -/
def demoTask (p : Priority) (c : Nat) : Task :=
  { text := "demo", completed := false, priority := p, createdAt := c }

/-- A concrete task list with distinct createdAt values. -/
def demoTasks : List Task :=
  [demoTask .low 5, demoTask .high 1, demoTask .medium 9]

/-- A concrete component state before the first snapshot: an identity
is present, the input holds pending text, the initial load is not done. -/
def demoState : SyncState :=
  { tasks := demoTasks, newTask := "milk", priority := .high,
    userId := some "u", loading := true, isInitialLoadDone := false,
    darkMode := false }

/-- The same state with whitespace-only pending input text. -/
def blankState : SyncState :=
  { demoState with newTask := "   " }

/-- The comparator ordering, characterised arithmetically: `a` sorts
at or before `b` exactly when `a` has strictly larger priority rank,
or equal rank and a later-or-equal timestamp. -/
theorem taskLe_iff (a b : Task) : taskLe a b ↔
    (prioOrder b.priority < prioOrder a.priority ∨
      (prioOrder a.priority = prioOrder b.priority ∧ b.createdAt ≤ a.createdAt)) := by
  simp only [taskLe, taskCmp]
  split <;> omega

/-- The priority rank table is injective. -/
theorem prioOrder_inj (p q : Priority) (h : prioOrder p = prioOrder q) : p = q := by
  revert h
  cases p <;> cases q <;> decide

/-- Tasks with equal priority and equal timestamp compare as equal. -/
theorem taskLe_of_eq_key (a b : Task) (hp : a.priority = b.priority)
    (hc : a.createdAt = b.createdAt) : taskLe a b := by
  rw [taskLe_iff, hp, hc]
  omega

/-- Stability of the display sort: the subsequence of tasks whose sort
key satisfies a fixed key predicate (any two matching tasks compare as
equal) is unchanged by sorting. -/
theorem filter_sortedTasks (l : List Task) (p : Task → Bool)
    (hkey : ∀ x y : Task, p x = true → p y = true → taskLe x y) :
    (sortedTasks l).filter p = l.filter p := by
  have hpw : (l.filter p).Pairwise taskLe :=
    List.pairwise_of_forall_mem_list fun x hx y hy =>
      hkey x y (List.of_mem_filter hx) (List.of_mem_filter hy)
  have hsub : List.Sublist (l.filter p) (sortedTasks l) :=
    List.sublist_insertionSort hpw (List.filter_sublist l)
  have hself : (l.filter p).filter p = l.filter p :=
    List.filter_eq_self.mpr fun a ha => List.of_mem_filter ha
  have hsub2 : List.Sublist (l.filter p) ((sortedTasks l).filter p) := by
    have h2 := hsub.filter p
    rwa [hself] at h2
  have hperm : ((sortedTasks l).filter p).Perm (l.filter p) :=
    (List.perm_insertionSort taskLe l).filter p
  exact (hsub2.eq_of_length hperm.length_eq.symm).symm

/-- C2: sortForDisplay orders tasks by priority descending with
high=3, medium=2, low=1, and for equal priority by createdAt
descending; it is stable (equal-key tasks keep their canonical
relative order) and is a permutation of the canonical list, which it
leaves unmodified. -/
theorem sortForDisplay_spec (l : List Task) :
    (sortedTasks l).Perm l
  ∧ (sortedTasks l).Pairwise (fun a b =>
      prioOrder b.priority < prioOrder a.priority ∨
        (a.priority = b.priority ∧ b.createdAt ≤ a.createdAt))
  ∧ ∀ (pr : Priority) (c : Nat),
      (sortedTasks l).filter (fun u => decide (u.priority = pr ∧ u.createdAt = c))
        = l.filter (fun u => decide (u.priority = pr ∧ u.createdAt = c)) := by
  refine ⟨List.perm_insertionSort taskLe l, ?_, ?_⟩
  · have h : (sortedTasks l).Pairwise taskLe := List.sorted_insertionSort taskLe l
    exact h.imp fun hab => by
      rw [taskLe_iff] at hab
      rcases hab with hlt | ⟨heq, hle⟩
      · exact Or.inl hlt
      · exact Or.inr ⟨prioOrder_inj _ _ heq, hle⟩
  · intro pr c
    refine filter_sortedTasks l _ fun x y hx hy => ?_
    have hx2 := of_decide_eq_true hx
    have hy2 := of_decide_eq_true hy
    exact taskLe_of_eq_key x y (hx2.1.trans hy2.1.symm) (hx2.2.trans hy2.2.symm)

/-- Shifting the start index of the indexed filter by one is the same
as shifting the excluded index down by one. -/
theorem filterWithIndex_shift (index : Int) :
    ∀ (l : List Task) (s : Nat),
      filterWithIndex (fun i _ => decide ((i : Int) ≠ index)) (s + 1) l
        = filterWithIndex (fun i _ => decide ((i : Int) ≠ index - 1)) s l := by
  intro l
  induction l with
  | nil => intro s; rfl
  | cons x xs ih =>
    intro s
    simp only [filterWithIndex, ih (s + 1)]
    by_cases h : ((s : Int)) = index - 1
    · rw [if_neg (by simp only [decide_eq_true_eq]; omega),
          if_neg (by simp only [decide_eq_true_eq]; omega)]
    · rw [if_pos (by simp only [decide_eq_true_eq]; omega),
          if_pos (by simp only [decide_eq_true_eq]; omega)]

/-- When the excluded index lies outside the index range of the list,
the indexed filter keeps every element. -/
theorem filterWithIndex_all (index : Int) :
    ∀ (l : List Task) (s : Nat),
      (index < (s : Int) ∨ ((s : Int) + l.length ≤ index)) →
      filterWithIndex (fun i _ => decide ((i : Int) ≠ index)) s l = l := by
  intro l
  induction l with
  | nil => intro s _; rfl
  | cons x xs ih =>
    intro s h
    simp only [List.length_cons] at h
    push_cast at h
    have h1 : ((s : Int)) ≠ index := by omega
    simp only [filterWithIndex]
    rw [if_pos (by simp only [decide_eq_true_eq]; omega),
        ih (s + 1) (by push_cast; omega)]

/-- Unfolding of deleteTask on a cons cell: the head is kept unless
the index is 0, and the tail is filtered against the index less one. -/
theorem deleteTask_cons (x : Task) (xs : List Task) (i : Int) :
    deleteTask (x :: xs) i
      = (if (0 : Int) = i then [] else [x]) ++ deleteTask xs (i - 1) := by
  simp only [deleteTask, filterWithIndex]
  rw [filterWithIndex_shift i xs 0]
  by_cases h : (0 : Int) = i
  · simp [h]
  · simp [h, Ne.symm h]

/-- deleteTask with a negative or too-large index keeps the whole list. -/
theorem deleteTask_out_of_range (l : List Task) (i : Int)
    (h : i < 0 ∨ (l.length : Int) ≤ i) : deleteTask l i = l := by
  apply filterWithIndex_all i l 0
  push_cast
  omega

/-- deleteTask with an in-range index removes exactly the element at
that index, keeping every other element in order. -/
theorem deleteTask_eq_take_drop (l : List Task) :
    ∀ i : Nat, i < l.length → deleteTask l (i : Int) = l.take i ++ l.drop (i + 1) := by
  induction l with
  | nil => intro i h; simp at h
  | cons x xs ih =>
    intro i h
    rw [deleteTask_cons]
    cases i with
    | zero =>
      have hr : deleteTask xs (-1) = xs :=
        deleteTask_out_of_range xs _ (by omega)
      simp [hr]
    | succ j =>
      have hne : ¬ ((0 : Int) = ((j + 1 : Nat) : Int)) := by omega
      rw [if_neg hne]
      have hcast : ((j + 1 : Nat) : Int) - 1 = ((j : Nat) : Int) := by push_cast; omega
      rw [hcast, ih j (by simp only [List.length_cons] at h; omega)]
      simp

/-- When some task carries the sought createdAt, originalIndex returns
a valid nonnegative position. -/
theorem originalIndex_mem (c : Nat) :
    ∀ l : List Task, (∃ t ∈ l, t.createdAt = c) →
      ∃ j : Nat, originalIndex l c = (j : Int) ∧ j < l.length := by
  intro l
  induction l with
  | nil => intro h; simp at h
  | cons x xs ih =>
    intro h
    by_cases hx : x.createdAt = c
    · exact ⟨0, by simp [originalIndex, hx], by simp⟩
    · have hxs : ∃ t ∈ xs, t.createdAt = c := by
        rcases h with ⟨t, ht, hc2⟩
        rcases List.mem_cons.mp ht with rfl | htxs
        · exact absurd hc2 hx
        · exact ⟨t, htxs, hc2⟩
      rcases ih hxs with ⟨j, hj, hjlt⟩
      refine ⟨j + 1, ?_, by simp only [List.length_cons]; omega⟩
      simp only [originalIndex, if_neg hx, hj]
      rw [if_neg (by omega)]
      push_cast
      omega

/-- With distinct createdAt values, deleting at the index found for a
createdAt removes exactly the task carrying that createdAt. -/
theorem deleteTask_originalIndex (c : Nat) :
    ∀ l : List Task, (l.map Task.createdAt).Nodup → (∃ t ∈ l, t.createdAt = c) →
      deleteTask l (originalIndex l c)
        = l.filter (fun u => decide (u.createdAt ≠ c)) := by
  intro l
  induction l with
  | nil => intro _ h; simp at h
  | cons x xs ih =>
    intro hnd h
    have hnd1 : x.createdAt ∉ xs.map Task.createdAt := by
      simp only [List.map_cons, List.nodup_cons] at hnd
      exact hnd.1
    have hnd2 : (xs.map Task.createdAt).Nodup := by
      simp only [List.map_cons, List.nodup_cons] at hnd
      exact hnd.2
    by_cases hx : x.createdAt = c
    · have h0 : originalIndex (x :: xs) c = 0 := by simp [originalIndex, hx]
      rw [h0, deleteTask_cons, if_pos rfl]
      have hall : ∀ u ∈ xs, u.createdAt ≠ c := by
        intro u hu huc
        apply hnd1
        rw [hx, ← huc]
        exact List.mem_map_of_mem Task.createdAt hu
      rw [deleteTask_out_of_range xs _ (by omega)]
      rw [List.filter_cons_of_neg (by simp [hx])]
      exact (List.filter_eq_self.mpr fun u hu => by simpa using hall u hu).symm
    · have hxs : ∃ t ∈ xs, t.createdAt = c := by
        rcases h with ⟨t, ht, hc2⟩
        rcases List.mem_cons.mp ht with rfl | htxs
        · exact absurd hc2 hx
        · exact ⟨t, htxs, hc2⟩
      rcases originalIndex_mem c xs hxs with ⟨j, hj, hjlt⟩
      have hoi : originalIndex (x :: xs) c = (j : Int) + 1 := by
        simp only [originalIndex, if_neg hx, hj]
        rw [if_neg (by omega)]
      rw [hoi, deleteTask_cons, if_neg (by omega), add_sub_cancel_right]
      rw [← hj, ih hnd2 hxs]
      rw [List.filter_cons_of_pos (by simp [hx])]
      rfl

/-- C3: deleteTask with a valid index returns the list with exactly
the element at that index removed and the rest preserved in order,
one shorter; and when the index is obtained by matching the createdAt
of a displayed (sorted) task back to the canonical list, under
distinct createdAt values the task removed is exactly the task with
that createdAt. -/
theorem deleteTask_spec (l : List Task) :
    (∀ i : Nat, i < l.length →
        deleteTask l (i : Int) = l.take i ++ l.drop (i + 1) ∧
        (deleteTask l (i : Int)).length = l.length - 1)
  ∧ (∀ t ∈ sortedTasks l, (l.map Task.createdAt).Nodup →
        deleteTask l (originalIndex l t.createdAt)
          = l.filter (fun u => decide (u.createdAt ≠ t.createdAt)) ∧
        (deleteTask l (originalIndex l t.createdAt)).length = l.length - 1) := by
  constructor
  · intro i hi
    refine ⟨deleteTask_eq_take_drop l i hi, ?_⟩
    rw [deleteTask_eq_take_drop l i hi]
    simp only [List.length_append, List.length_take, List.length_drop]
    omega
  · intro t ht hnd
    have ht2 : t ∈ List.insertionSort taskLe l := ht
    have hmem : t ∈ l := (List.mem_insertionSort taskLe).mp ht2
    have hex : ∃ u ∈ l, u.createdAt = t.createdAt := ⟨t, hmem, rfl⟩
    refine ⟨deleteTask_originalIndex t.createdAt l hnd hex, ?_⟩
    rcases originalIndex_mem t.createdAt l hex with ⟨j, hj, hjl⟩
    rw [hj, deleteTask_eq_take_drop l j hjl]
    simp only [List.length_append, List.length_take, List.length_drop]
    omega

/-- Shifting the start index of the indexed map by one is the same as
shifting the toggled index down by one. -/
theorem mapWithIndex_shift (index : Int) :
    ∀ (l : List Task) (s : Nat),
      mapWithIndex
        (fun i task =>
          if (i : Int) = index then { task with completed := !task.completed }
          else task) (s + 1) l
        = mapWithIndex
            (fun i task =>
              if (i : Int) = index - 1 then { task with completed := !task.completed }
              else task) s l := by
  intro l
  induction l with
  | nil => intro s; rfl
  | cons x xs ih =>
    intro s
    simp only [mapWithIndex, ih (s + 1)]
    by_cases h : ((s : Int)) = index - 1
    · rw [if_pos (by omega), if_pos h]
    · rw [if_neg (by omega), if_neg h]

/-- Unfolding of toggleComplete on a cons cell. -/
theorem toggleComplete_cons (x : Task) (xs : List Task) (i : Int) :
    toggleComplete (x :: xs) i
      = (if (0 : Int) = i then { x with completed := !x.completed } else x)
        :: toggleComplete xs (i - 1) := by
  simp only [toggleComplete, mapWithIndex, Nat.cast_zero]
  rw [mapWithIndex_shift i xs 0]

/-- toggleComplete with a negative or too-large index maps every
element to itself. -/
theorem toggleComplete_out_of_range :
    ∀ (l : List Task) (i : Int), (i < 0 ∨ (l.length : Int) ≤ i) →
      toggleComplete l i = l := by
  intro l
  induction l with
  | nil => intro i _; rfl
  | cons x xs ih =>
    intro i h
    simp only [List.length_cons] at h
    push_cast at h
    rw [toggleComplete_cons, if_neg (by omega), ih (i - 1) (by omega)]

/-- toggleComplete preserves the length of the list. -/
theorem toggleComplete_length :
    ∀ (l : List Task) (i : Int), (toggleComplete l i).length = l.length := by
  intro l
  induction l with
  | nil => intro i; rfl
  | cons x xs ih =>
    intro i
    rw [toggleComplete_cons]
    simp [ih (i - 1)]

/-- Element-wise description of toggleComplete: the element at the
toggled index has its completed flag flipped, all others unchanged. -/
theorem toggleComplete_getElem :
    ∀ (l : List Task) (i : Int) (j : Nat),
      (toggleComplete l i)[j]? =
        if ((j : Int)) = i then
          (l[j]?).map (fun u => { u with completed := !u.completed })
        else l[j]? := by
  intro l
  induction l with
  | nil => intro i j; simp [toggleComplete, mapWithIndex]
  | cons x xs ih =>
    intro i j
    rw [toggleComplete_cons]
    cases j with
    | zero =>
      simp only [List.getElem?_cons_zero, Nat.cast_zero]
      by_cases h : ((0 : Int)) = i
      · rw [if_pos h, if_pos h]
        rfl
      · rw [if_neg h, if_neg h]
    | succ j =>
      simp only [List.getElem?_cons_succ]
      rw [ih (i - 1) j]
      by_cases h : ((j : Int)) = i - 1
      · rw [if_pos h, if_pos (by omega)]
      · rw [if_neg h, if_neg (by omega)]

/-- Toggling the same index twice restores the original list. -/
theorem toggleComplete_involution :
    ∀ (l : List Task) (i : Int), toggleComplete (toggleComplete l i) i = l := by
  intro l
  induction l with
  | nil => intro i; rfl
  | cons x xs ih =>
    intro i
    rw [toggleComplete_cons, toggleComplete_cons, ih (i - 1)]
    by_cases h : (0 : Int) = i
    · subst h
      cases x
      simp
    · simp only [if_neg h]

/-- C7: toggleComplete at a valid index flips the completed flag of
exactly the element at that index, keeps every other element and the
length unchanged, and applying it twice at the same index restores
every element to its original value. -/
theorem toggleComplete_spec (l : List Task) (i : Nat) (h : i < l.length) :
    (toggleComplete l (i : Int)).length = l.length
  ∧ (toggleComplete l (i : Int))[i]? =
      (l[i]?).map (fun u => { u with completed := !u.completed })
  ∧ (∀ j : Nat, j ≠ i → (toggleComplete l (i : Int))[j]? = l[j]?)
  ∧ toggleComplete (toggleComplete l (i : Int)) (i : Int) = l := by
  refine ⟨toggleComplete_length l i, ?_, ?_, toggleComplete_involution l i⟩
  · rw [toggleComplete_getElem l i i, if_pos rfl]
  · intro j hj
    rw [toggleComplete_getElem l i j, if_neg (by omega)]

/-- C9: out-of-range indices, negative or not less than the length,
leave the task list completely unchanged under both deleteTask and
toggleComplete. -/
theorem index_out_of_range_noop (l : List Task) (i : Int)
    (h : i < 0 ∨ (l.length : Int) ≤ i) :
    deleteTask l i = l ∧ toggleComplete l i = l :=
  ⟨deleteTask_out_of_range l i h, toggleComplete_out_of_range l i h⟩

/-- C4: addTask with non-empty trimmed text appends exactly one task,
with the trimmed text, completed false, the selected priority and the
current timestamp, leaving all pre-existing tasks unchanged. -/
theorem addTask_spec (st : SyncState) (now : Nat) (h : jsTrim st.newTask ≠ "") :
    (addTask st now).tasks
      = st.tasks ++ [{ text := jsTrim st.newTask, completed := false,
                       priority := st.priority, createdAt := now }]
  ∧ (addTask st now).tasks.length = st.tasks.length + 1 := by
  simp [addTask, h]

/-- C8: addTask with text that trims to the empty string, such as the
empty string or whitespace-only text, is a no-op: the task list, and
in fact the whole state, is returned unchanged. -/
theorem addTask_noop (st : SyncState) (now : Nat) (h : jsTrim st.newTask = "") :
    (addTask st now).tasks = st.tasks ∧ addTask st now = st := by
  simp [addTask, h]

/-- C10: after a successful addTask the pending input text is reset to
the empty string and the pending priority to medium; after a no-op
addTask neither is reset. -/
theorem addTask_reset (st : SyncState) (now : Nat) :
    (jsTrim st.newTask ≠ "" →
      (addTask st now).newTask = "" ∧ (addTask st now).priority = Priority.medium)
  ∧ (jsTrim st.newTask = "" →
      (addTask st now).newTask = st.newTask ∧ (addTask st now).priority = st.priority) := by
  constructor <;> intro h <;> simp [addTask, h]

/-- C5: an existing-document snapshot replaces local tasks wholesale
with the snapshot tasks (empty when the field is absent) and replaces
darkMode exactly when the snapshot darkMode is defined; an absent
document empties local tasks and leaves darkMode unchanged. -/
theorem applySnapshot_spec (st : SyncState) (data : DocData) :
    (applySnapshot st (some data)).tasks = data.tasks.getD []
  ∧ (∀ d : Bool, data.preferences.bind Prefs.darkMode = some d →
      (applySnapshot st (some data)).darkMode = d)
  ∧ (data.preferences.bind Prefs.darkMode = none →
      (applySnapshot st (some data)).darkMode = st.darkMode)
  ∧ (applySnapshot st none).tasks = []
  ∧ (applySnapshot st none).darkMode = st.darkMode := by
  refine ⟨rfl, ?_, ?_, rfl, rfl⟩
  · intro d hd
    simp [applySnapshot, hd]
  · intro hd
    simp [applySnapshot, hd]

/-- applySnapshot never touches the identity. -/
theorem applySnapshot_userId (st : SyncState) (snap : Option DocData) :
    (applySnapshot st snap).userId = st.userId := by
  cases snap <;> rfl

/-- addTask never touches the identity, the initial-load flag or the
theme. -/
theorem addTask_preserves (st : SyncState) (now : Nat) :
    (addTask st now).userId = st.userId
  ∧ (addTask st now).isInitialLoadDone = st.isInitialLoadDone := by
  unfold addTask
  split <;> exact ⟨rfl, rfl⟩

/-- No event changes the identity. -/
theorem step_userId (st : SyncState) (e : Event) :
    (step st e).1.userId = st.userId := by
  cases e with
  | snapshot snap => exact applySnapshot_userId st snap
  | addTask now => exact (addTask_preserves st now).1
  | deleteTask i => rfl
  | toggleComplete i => rfl
  | clearAll c => rfl
  | setNewTask s => rfl
  | setPriority p => rfl
  | toggleDark => rfl

/-- Non-snapshot events do not change the initial-load flag. -/
theorem step_flag (st : SyncState) (e : Event) (h : isSnapshotEvent e = false) :
    (step st e).1.isInitialLoadDone = st.isInitialLoadDone := by
  cases e with
  | snapshot snap => simp [isSnapshotEvent] at h
  | addTask now => exact (addTask_preserves st now).2
  | deleteTask i => rfl
  | toggleComplete i => rfl
  | clearAll c => rfl
  | setNewTask s => rfl
  | setPriority p => rfl
  | toggleDark => rfl

/-- The guard of both save effects: without an identity or before the
initial load is done, no write is issued. -/
theorem effects_nil (s : SyncState)
    (h : s.userId = none ∨ s.isInitialLoadDone = false) :
    saveTasksEffect s = [] ∧ savePrefsEffect s = [] := by
  rcases h with h | h <;> simp [saveTasksEffect, savePrefsEffect, h]

/-- A single step issues no write when there is no identity, or when
it is not a snapshot and the initial load is not done. -/
theorem step_writes_nil (st : SyncState) (e : Event)
    (h : st.userId = none ∨ (isSnapshotEvent e = false ∧ st.isInitialLoadDone = false)) :
    (step st e).2 = [] := by
  cases e with
  | snapshot snap =>
    rcases h with h1 | ⟨hs, _⟩
    · have h2 : (applySnapshot st snap).userId = none :=
        (applySnapshot_userId st snap).trans h1
      have h3 := effects_nil (applySnapshot st snap) (Or.inl h2)
      simp only [step]
      rw [h3.1, h3.2]
      rfl
    · simp [isSnapshotEvent] at hs
  | addTask now =>
    have hnil : saveTasksEffect (addTask st now) = [] := by
      refine (effects_nil _ ?_).1
      rcases h with h1 | ⟨_, hf⟩
      · exact Or.inl (((addTask_preserves st now).1).trans h1)
      · exact Or.inr (((addTask_preserves st now).2).trans hf)
    simp only [step]
    split
    · rfl
    · exact hnil
  | deleteTask i =>
    simp only [step]
    refine (effects_nil _ ?_).1
    rcases h with h1 | ⟨_, hf⟩
    · exact Or.inl h1
    · exact Or.inr hf
  | toggleComplete i =>
    simp only [step]
    refine (effects_nil _ ?_).1
    rcases h with h1 | ⟨_, hf⟩
    · exact Or.inl h1
    · exact Or.inr hf
  | clearAll c =>
    simp only [step]
    split
    · refine (effects_nil _ ?_).1
      rcases h with h1 | ⟨_, hf⟩
      · exact Or.inl h1
      · exact Or.inr hf
    · rfl
  | setNewTask s => rfl
  | setPriority p => rfl
  | toggleDark =>
    simp only [step]
    refine (effects_nil _ ?_).2
    rcases h with h1 | ⟨_, hf⟩
    · exact Or.inl h1
    · exact Or.inr hf

/-- C1: under one identity, no write is issued before the first
snapshot is processed: a run whose events contain no snapshot, started
with the initial-load flag unset, issues zero writes; and with no
identity present, zero writes are issued in any case. -/
theorem write_guard (st : SyncState) (es : List Event)
    (h : st.userId = none ∨
      ((∀ e ∈ es, isSnapshotEvent e = false) ∧ st.isInitialLoadDone = false)) :
    (run st es).2 = [] := by
  revert h
  induction es generalizing st with
  | nil => intro _; rfl
  | cons e es ih =>
    intro h
    have hstep : (step st e).2 = [] := by
      refine step_writes_nil st e ?_
      rcases h with h1 | ⟨hs, hf⟩
      · exact Or.inl h1
      · exact Or.inr ⟨hs e (List.mem_cons_self e es), hf⟩
    have hrest : (run (step st e).1 es).2 = [] := by
      refine ih (step st e).1 ?_
      rcases h with h1 | ⟨hs, hf⟩
      · exact Or.inl ((step_userId st e).trans h1)
      · refine Or.inr ⟨fun e2 he2 => hs e2 (List.mem_cons_of_mem e he2), ?_⟩
        rw [step_flag st e (hs e (List.mem_cons_self e es))]
        exact hf
    simp only [run, hstep, hrest]
    rfl

/-- Any element of the task-saving effect is the tasks payload. -/
theorem mem_saveTasksEffect (s : SyncState) (w : DocData)
    (hw : w ∈ saveTasksEffect s) : w = tasksPayload s.tasks := by
  unfold saveTasksEffect at hw
  split at hw
  · simp at hw
  · simpa using hw

/-- Any element of the preferences-saving effect is the theme payload. -/
theorem mem_savePrefsEffect (s : SyncState) (w : DocData)
    (hw : w ∈ savePrefsEffect s) : w = prefsPayload s.darkMode := by
  unfold savePrefsEffect at hw
  split at hw
  · simp at hw
  · simpa using hw

/-- Every write a step issues is either a tasks payload or a theme
payload. -/
theorem step_write_shape (st : SyncState) (e : Event) (w : DocData)
    (hw : w ∈ (step st e).2) :
    (∃ ts, w = tasksPayload ts) ∨ (∃ d, w = prefsPayload d) := by
  cases e with
  | snapshot snap =>
    simp only [step] at hw
    rcases List.mem_append.mp hw with h1 | h1
    · exact Or.inl ⟨_, mem_saveTasksEffect _ _ h1⟩
    · exact Or.inr ⟨_, mem_savePrefsEffect _ _ h1⟩
  | addTask now =>
    simp only [step] at hw
    split at hw
    · simp at hw
    · exact Or.inl ⟨_, mem_saveTasksEffect _ _ hw⟩
  | deleteTask i =>
    simp only [step] at hw
    exact Or.inl ⟨_, mem_saveTasksEffect _ _ hw⟩
  | toggleComplete i =>
    simp only [step] at hw
    exact Or.inl ⟨_, mem_saveTasksEffect _ _ hw⟩
  | clearAll c =>
    simp only [step] at hw
    split at hw
    · exact Or.inl ⟨_, mem_saveTasksEffect _ _ hw⟩
    · simp at hw
  | setNewTask s2 =>
    simp only [step] at hw
    simp at hw
  | setPriority p =>
    simp only [step] at hw
    simp at hw
  | toggleDark =>
    simp only [step] at hw
    exact Or.inr ⟨_, mem_savePrefsEffect _ _ hw⟩

/-- Every write a run issues is either a tasks payload or a theme
payload. -/
theorem run_write_shape (es : List Event) (w : DocData) :
    ∀ st : SyncState, w ∈ (run st es).2 →
      (∃ ts, w = tasksPayload ts) ∨ (∃ d, w = prefsPayload d) := by
  induction es with
  | nil => intro st hw; simp [run] at hw
  | cons e es ih =>
    intro st hw
    simp only [run] at hw
    rcases List.mem_append.mp hw with h1 | h1
    · exact step_write_shape st e w h1
    · exact ih (step st e).1 h1

/-- C6: every write issued after the guard passes is either a
tasks-only payload, whose top-level merge sets the tasks field and
leaves the preferences field of the remote document untouched, or a
preferences-only payload, whose merge sets the preferences field and
leaves the tasks field untouched. -/
theorem write_frame (st : SyncState) (es : List Event) (w : DocData)
    (hw : w ∈ (run st es).2) :
    (∃ ts, w = tasksPayload ts ∧ ∀ docu : DocData,
        (setDocMerge docu w).preferences = docu.preferences ∧
        (setDocMerge docu w).tasks = some ts)
  ∨ (∃ d, w = prefsPayload d ∧ ∀ docu : DocData,
        (setDocMerge docu w).tasks = docu.tasks ∧
        (setDocMerge docu w).preferences = some { darkMode := some d }) := by
  rcases run_write_shape es w st hw with ⟨ts, rfl⟩ | ⟨d, rfl⟩
  · exact Or.inl ⟨ts, rfl, fun docu => ⟨rfl, rfl⟩⟩
  · exact Or.inr ⟨d, rfl, fun docu => ⟨rfl, rfl⟩⟩

/-- Concrete evaluation of the write guard: mutating the tasks and the
theme before any snapshot, with an identity present but the initial
load not done, issues zero writes. -/
theorem write_guard_witness :
    (run demoState [Event.toggleDark, Event.addTask 3, Event.deleteTask 0]).2 = [] :=
  write_guard demoState [Event.toggleDark, Event.addTask 3, Event.deleteTask 0]
    (Or.inr ⟨by decide, rfl⟩)

/-- Concrete evaluation of deleteTask: removing index 1 from the demo
list, and removing by the createdAt of a displayed task. -/
theorem deleteTask_spec_witness :
    (deleteTask demoTasks ((1 : Nat) : Int)
        = demoTasks.take 1 ++ demoTasks.drop (1 + 1) ∧
      (deleteTask demoTasks ((1 : Nat) : Int)).length = demoTasks.length - 1)
  ∧ (deleteTask demoTasks (originalIndex demoTasks (demoTask .medium 9).createdAt)
        = demoTasks.filter (fun u => decide (u.createdAt ≠ (demoTask .medium 9).createdAt)) ∧
      (deleteTask demoTasks
          (originalIndex demoTasks (demoTask .medium 9).createdAt)).length
        = demoTasks.length - 1) :=
  ⟨(deleteTask_spec demoTasks).1 1 (by decide),
   (deleteTask_spec demoTasks).2 (demoTask .medium 9) (by decide) (by decide)⟩

/-- Concrete evaluation of addTask on non-empty input text. -/
theorem addTask_spec_witness :
    (addTask demoState 7).tasks
      = demoState.tasks ++ [{ text := jsTrim demoState.newTask, completed := false,
                              priority := demoState.priority, createdAt := 7 }]
  ∧ (addTask demoState 7).tasks.length = demoState.tasks.length + 1 :=
  addTask_spec demoState 7 (by decide)

/-- Concrete evaluation of the snapshot handler: a defined darkMode is
adopted, an undefined one leaves the local theme unchanged. -/
theorem applySnapshot_spec_witness :
    (applySnapshot demoState
        (some { tasks := some demoTasks,
                preferences := some { darkMode := some true } })).darkMode = true
  ∧ (applySnapshot demoState
        (some { tasks := none, preferences := none })).darkMode
      = demoState.darkMode :=
  ⟨(applySnapshot_spec demoState
      { tasks := some demoTasks, preferences := some { darkMode := some true } }).2.1
      true rfl,
   (applySnapshot_spec demoState
      { tasks := none, preferences := none }).2.2.1 rfl⟩

/-- Concrete evaluation of the write frame property on the first write
issued after a snapshot. -/
theorem write_frame_witness :
    (∃ ts, tasksPayload [] = tasksPayload ts ∧ ∀ docu : DocData,
        (setDocMerge docu (tasksPayload [])).preferences = docu.preferences ∧
        (setDocMerge docu (tasksPayload [])).tasks = some ts)
  ∨ (∃ d, tasksPayload [] = prefsPayload d ∧ ∀ docu : DocData,
        (setDocMerge docu (tasksPayload [])).tasks = docu.tasks ∧
        (setDocMerge docu (tasksPayload [])).preferences
          = some { darkMode := some d }) :=
  write_frame demoState
    [Event.snapshot (some { tasks := some [], preferences := none })]
    (tasksPayload []) (by decide)

/-- Concrete evaluation of toggleComplete at index 1 of the demo list. -/
theorem toggleComplete_spec_witness :
    (toggleComplete demoTasks ((1 : Nat) : Int)).length = demoTasks.length
  ∧ (toggleComplete demoTasks ((1 : Nat) : Int))[(1 : Nat)]? =
      (demoTasks[(1 : Nat)]?).map (fun u => { u with completed := !u.completed })
  ∧ (∀ j : Nat, j ≠ 1 →
      (toggleComplete demoTasks ((1 : Nat) : Int))[j]? = demoTasks[j]?)
  ∧ toggleComplete (toggleComplete demoTasks ((1 : Nat) : Int)) ((1 : Nat) : Int)
      = demoTasks :=
  toggleComplete_spec demoTasks 1 (by decide)

/-- Concrete evaluation of addTask on whitespace-only input text. -/
theorem addTask_noop_witness :
    (addTask blankState 7).tasks = blankState.tasks
  ∧ addTask blankState 7 = blankState :=
  addTask_noop blankState 7 (by decide)

/-- Concrete evaluation of the out-of-range no-ops at indices -1 and 3
of the three-element demo list. -/
theorem index_out_of_range_noop_witness :
    (deleteTask demoTasks (-1) = demoTasks ∧ toggleComplete demoTasks (-1) = demoTasks)
  ∧ (deleteTask demoTasks 3 = demoTasks ∧ toggleComplete demoTasks 3 = demoTasks) :=
  ⟨index_out_of_range_noop demoTasks (-1) (by decide),
   index_out_of_range_noop demoTasks 3 (by decide)⟩

/-- Concrete evaluation of the input resets: a successful add resets
text and priority, a no-op add resets neither. -/
theorem addTask_reset_witness :
    ((addTask demoState 7).newTask = ""
      ∧ (addTask demoState 7).priority = Priority.medium)
  ∧ ((addTask blankState 7).newTask = blankState.newTask
      ∧ (addTask blankState 7).priority = blankState.priority) :=
  ⟨(addTask_reset demoState 7).1 (by decide),
   (addTask_reset blankState 7).2 (by decide)⟩

end Todo
